import Mathlib

/-!
Verification of the client-side transport core of `git-transport`
(`src/git-transport/src/client/mod.rs`): a shallow embedding of the
data model (write modes, teardown control messages, the request
writer / response reader pair) and of the protocol-V2 `invoke`
extension, together with theorems settling the specified properties.

Stateful I/O is embedded by explicit state passing: the packets a
writer has emitted to its underlying sink are carried as an explicit
trace (`List Packet`), and fallible sinks are modelled by a predicate
saying which emissions fail.
-/

namespace GitTransport

/-- A unit emitted to the underlying byte sink.  `dataLine` is a framed
data packet produced by the packet-line writer (in text mode, one per
write call); `flush` is the flush control packet; `rawText` is a fixed
text packet written directly to the underlying sink, bypassing the
framing writer (as `WritePacketOnDrop::drop` does via `inner.inner`). -/
inductive Packet where
  | dataLine (bytes : String)
  | flush
  | rawText (bytes : String)
  deriving DecidableEq, Repr

/-- `enum MessageKind { Flush, Text(&'static [u8]) }` from
src/git-transport/src/client/mod.rs lines 72-75. -/
inductive MessageKind where
  | Flush
  | Text (t : String)
  deriving DecidableEq, Repr

/-- The raw control packet a queued `MessageKind` turns into in
`WritePacketOnDrop::drop` (mod.rs lines 179-185): `Flush` becomes a
flush packet, `Text t` a fixed text packet, both written to the
underlying sink directly. -/
def msgPacket : MessageKind → Packet
  | MessageKind.Flush => Packet.flush
  | MessageKind.Text t => Packet.rawText t

/-- `enum WriteMode` from mod.rs lines 59-62. -/
inductive WriteMode where
  | Binary
  | OneLFTerminatedLinePerWriteCall
  deriving DecidableEq, Repr

/-- `impl Default for WriteMode` (mod.rs lines 64-68), as an
`Inhabited` instance whose `default` is the Rust `Default::default`. -/
instance instInhabitedWriteMode : Inhabited WriteMode :=
  ⟨WriteMode.OneLFTerminatedLinePerWriteCall⟩

/-- `enum Error` from mod.rs lines 24-47: the distinguishable error
kinds every ordinary fallible operation of the core returns.  The
payloads of external error types are modelled as strings. -/
inductive Error where
  | Io (err : String)
  | Capabilities (err : String)
  | LineDecode (err : String)
  | ExpectedLine (what : String)
  | ExpectedDataLine
  | Http (err : String)
  deriving DecidableEq, Repr

/-- The buffered reader paired with a request writer, modelled as a
byte sequence with a cursor. -/
structure InnerReader where
  data : List Nat
  pos : Nat
  deriving DecidableEq, Repr

/-- `struct RequestWriter` (mod.rs lines 78-81): the framed write half
— carried as the trace of packets already emitted plus the control
messages queued for teardown — paired with the reader-in-waiting. -/
structure RequestWriter where
  written : List Packet
  on_drop : List MessageKind
  reader : InnerReader
  deriving DecidableEq, Repr

/-- `struct ResponseReader` (mod.rs lines 134-136): holds the extended
buffered reader after the write phase ends. -/
structure ResponseReader where
  reader : InnerReader
  deriving DecidableEq, Repr

/-- One `write_all` call on a `RequestWriter` in
`OneLFTerminatedLinePerWriteCall` mode: the text-mode packet-line
writer frames the call's bytes as exactly one data packet. -/
def RequestWriter.write_all (w : RequestWriter) (s : String) : RequestWriter :=
  { w with written := w.written ++ [Packet.dataLine s] }

/-- `RequestWriter::into_read` (mod.rs lines 112-115): consuming the
writer drops its write half, which drains the queued `on_drop`
messages FIFO into the sink (`WritePacketOnDrop::drop`), and yields a
`ResponseReader` wrapping the paired reader.  Returns the complete
sink trace together with the reader. -/
def RequestWriter.into_read (w : RequestWriter) : List Packet × ResponseReader :=
  (w.written ++ w.on_drop.map msgPacket, ⟨w.reader⟩)

/-- `Transport::request` as `invoke` uses it: a fresh writer framed
per `write_mode`, with `on_drop` scheduled for emission at teardown. -/
def request (_write_mode : WriteMode) (on_drop : List MessageKind)
    (reader : InnerReader) : RequestWriter :=
  { written := [], on_drop := on_drop, reader := reader }

/-- The line written for one capability pair in `invoke`
(mod.rs lines 231-236): `"name=value"` when the value is present,
`"name"` otherwise. -/
def capLine : String × Option String → String
  | (name, some value) => name ++ "=" ++ value
  | (name, none) => name

/-- Outcome of `invoke`: a normal return of the response reader (with
the full sink trace), an ordinary error result, or a panic (the fault
`unimplemented!` raises), recording the trace emitted before the
panic fired. -/
inductive InvokeResult where
  | ok (trace : List Packet) (reader : ResponseReader)
  | error (e : Error)
  | panicked (msg : String) (traceBeforePanic : List Packet)
  deriving DecidableEq, Repr

/-- `TransportV2Ext::invoke` (mod.rs lines 222-242): requests a writer
in line mode with a queued `Flush`, writes `"command=<name>"`, then
one line per capability pair in the given order, then faults with
`unimplemented!("arguments")` if arguments were supplied, else
transitions the writer into the response reader. -/
def invoke (command : String) (capabilities : List (String × Option String))
    (arguments : Option (List String)) (reader : InnerReader) : InvokeResult :=
  let writer := request WriteMode.OneLFTerminatedLinePerWriteCall [MessageKind.Flush] reader
  let writer := writer.write_all ("command=" ++ command)
  let writer := capabilities.foldl (fun w c => w.write_all (capLine c)) writer
  match arguments with
  | some _ => InvokeResult.panicked "not implemented: arguments" writer.written
  | none =>
    let r := writer.into_read
    InvokeResult.ok r.1 r.2

/-- Whether an `InvokeResult` is the incomplete-feature panic. -/
def InvokeResult.isArgumentsFault : InvokeResult → Bool
  | InvokeResult.panicked "not implemented: arguments" _ => true
  | _ => false

/-- The shape of the write half chosen by
`RequestWriter::new_from_bufread` (mod.rs lines 94-111): the plain
packet-line writer when `on_drop` is empty, else the writer decorated
by `WritePacketOnDrop` carrying the queued messages. -/
inductive WriterBox where
  | plain
  | decorated (on_drop : List MessageKind)
  deriving DecidableEq, Repr

/-- `RequestWriter::new_from_bufread` (mod.rs lines 94-111), restricted
to the choice of write half: wrap in `WritePacketOnDrop` exactly when
`on_drop` is non-empty. -/
def new_from_bufread (_write_mode : WriteMode) (on_drop : List MessageKind) : WriterBox :=
  if on_drop.isEmpty then WriterBox.plain else WriterBox.decorated on_drop

/-- The raw control packets the write half emits at teardown — when
`into_read` consumes the writer or it otherwise leaves scope: a plain
writer emits nothing; `WritePacketOnDrop::drop` (mod.rs lines 177-187)
drains its queue in FIFO order, emitting each entry once, directly to
the underlying sink. -/
def teardownEmits : WriterBox → List Packet
  | WriterBox.plain => []
  | WriterBox.decorated l => l.map msgPacket

/-- The `.expect` diagnostic carried by the teardown-path fault
(mod.rs line 184). -/
def dropExpectMsg : String :=
  "packet line write on drop must work or we may as well panic to prevent weird surprises"

/-- Outcome of draining the teardown queue over a fallible sink:
either all packets were emitted, or the drain panicked with a
diagnostic after emitting a prefix. -/
inductive DropOutcome where
  | ok (emitted : List Packet)
  | panic (msg : String) (emitted : List Packet)
  deriving DecidableEq, Repr

/-- Whether a `DropOutcome` is the panic fault. -/
def DropOutcome.isPanic : DropOutcome → Bool
  | DropOutcome.ok _ => false
  | DropOutcome.panic _ _ => true

/-- `WritePacketOnDrop::drop` (mod.rs lines 177-187) over a fallible
sink (`ok p = true` iff emitting packet `p` succeeds): the queue is
drained FIFO, and the first failed emission panics with
`dropExpectMsg` via `.expect` — no error value is ever returned. -/
def dropDrain (ok : Packet → Bool) : List MessageKind → DropOutcome
  | [] => DropOutcome.ok []
  | m :: rest =>
    if ok (msgPacket m) then
      match dropDrain ok rest with
      | DropOutcome.ok e => DropOutcome.ok (msgPacket m :: e)
      | DropOutcome.panic s e => DropOutcome.panic s (msgPacket m :: e)
    else DropOutcome.panic dropExpectMsg []

/-- `RequestWriter::write` (mod.rs lines 83-91) over the same fallible
sink: an I/O failure comes back as an ordinary `Error::Io` result
(via `#[from]`), never as a panic. -/
def writeToSink (ok : Packet → Bool) (buf : String) : Except Error Unit :=
  if ok (Packet.dataLine buf) then Except.ok ()
  else Except.error (Error.Io "io error")

/-- One `read` on the inner buffered reader: yields at most `n` bytes
from the cursor and advances it. -/
def InnerReader.readBytes (r : InnerReader) (n : Nat) : List Nat × InnerReader :=
  let out := (r.data.drop r.pos).take n
  (out, { r with pos := r.pos + out.length })

/-- `fill_buf` on the inner buffered reader: the bytes from the cursor
on, without consuming them. -/
def InnerReader.fillBuf (r : InnerReader) : List Nat :=
  r.data.drop r.pos

/-- `consume` on the inner buffered reader: advances the cursor. -/
def InnerReader.consume (r : InnerReader) (amt : Nat) : InnerReader :=
  { r with pos := r.pos + amt }

/-- `impl io::Read for ResponseReader` (mod.rs lines 138-142):
delegates to the inner reader. -/
def ResponseReader.read (r : ResponseReader) (n : Nat) : List Nat × ResponseReader :=
  let s := r.reader.readBytes n
  (s.1, ⟨s.2⟩)

/-- `impl io::BufRead for ResponseReader`, `fill_buf`
(mod.rs lines 145-147): delegates to the inner reader. -/
def ResponseReader.fillBuf (r : ResponseReader) : List Nat :=
  r.reader.fillBuf

/-- `impl io::BufRead for ResponseReader`, `consume`
(mod.rs lines 149-151): delegates to the inner reader. -/
def ResponseReader.consume (r : ResponseReader) (amt : Nat) : ResponseReader :=
  ⟨r.reader.consume amt⟩

/-- A sequence of reader operations, used to compare the
`ResponseReader` against its inner reader observationally. -/
inductive ROp where
  | read (n : Nat)
  | fill
  | consume (n : Nat)
  deriving DecidableEq, Repr

/-- Run operations directly on an inner reader, collecting every
chunk of bytes the operations observe. -/
def runInner : InnerReader → List ROp → InnerReader × List (List Nat)
  | r, [] => (r, [])
  | r, ROp.read n :: ops =>
    let s := r.readBytes n
    let rest := runInner s.2 ops
    (rest.1, s.1 :: rest.2)
  | r, ROp.fill :: ops =>
    let rest := runInner r ops
    (rest.1, r.fillBuf :: rest.2)
  | r, ROp.consume n :: ops => runInner (r.consume n) ops

/-- Run the same operations through the `ResponseReader` wrapper. -/
def runResp : ResponseReader → List ROp → ResponseReader × List (List Nat)
  | r, [] => (r, [])
  | r, ROp.read n :: ops =>
    let s := r.read n
    let rest := runResp s.2 ops
    (rest.1, s.1 :: rest.2)
  | r, ROp.fill :: ops =>
    let rest := runResp r ops
    (rest.1, r.fillBuf :: rest.2)
  | r, ROp.consume n :: ops => runResp (r.consume n) ops

/-- `enum Protocol` of the crate (`V0` is the pre-V1 dialect the spec
groups with V1): ordered by `version`. -/
inductive Protocol where
  | V0
  | V1
  | V2
  deriving DecidableEq, Repr

/-- Numeric order of protocol versions. -/
def Protocol.version : Protocol → Nat
  | Protocol.V0 => 0
  | Protocol.V1 => 1
  | Protocol.V2 => 2

/-- `struct SetServiceResponse` (mod.rs lines 49-55): negotiated
protocol, capabilities, and the optional ref-advertisement stream
(present only under V0/V1). -/
structure SetServiceResponse where
  actual_protocol : Protocol
  capabilities : List (String × Option String)
  refs : Option (List (List Nat))
  deriving DecidableEq, Repr

/-- Modelled from the spec: the implementations of
`Transport::handshake` live in the backend modules (`connect`, `file`,
`git`, `ssh`, `http`), which are not under `src/`; only the trait
declaration (mod.rs lines 193-200) is, documenting that asking for an
unsupported protocol results in a protocol downgrade.  Per the spec,
negotiation is downgrade-only — the actual protocol is the lesser of
the requested version and the version the server reports — and the
ref-advertisement stream is present exactly under V0/V1. -/
def handshake (requested server : Protocol)
    (caps : List (String × Option String)) (refLines : List (List Nat)) :
    SetServiceResponse :=
  let actual := if server.version ≤ requested.version then server else requested
  { actual_protocol := actual
    capabilities := caps
    refs := if actual.version ≤ 1 then some refLines else none }

/-- A packet at the byte level, as the external packet-line writer
emits them. -/
inductive BytePacket where
  | data (payload : List Nat)
  | flush
  deriving DecidableEq, Repr

/-- The payload bytes of a byte-level packet. -/
def BytePacket.payloadBytes : BytePacket → List Nat
  | BytePacket.data p => p
  | BytePacket.flush => []

/-- The LF byte. -/
def lfByte : Nat := 10

/-- Whether a write call's bytes form exactly one LF-terminated
logical line: a single LF, at the end. -/
def isOneLFLine (buf : List Nat) : Bool :=
  buf.count lfByte == 1 && buf.getLast? == some lfByte

/-- Modelled from the spec: the external packet-line writer in binary
mode (`git_packetline::Writer::enable_binary_mode`, not under `src/`):
the bytes of each write call pass through unmodified as one opaque
data packet. -/
def binary_write_calls (bufs : List (List Nat)) : List BytePacket :=
  bufs.map BytePacket.data

/-- Modelled from the spec: the external packet-line writer in text
mode (`git_packetline::Writer::enable_text_mode`, not under `src/`):
each write call must be exactly one LF-terminated logical line and is
encoded as exactly one packet; other input is rejected. -/
def text_write_call (buf : List Nat) : Option BytePacket :=
  if isOneLFLine buf then some (BytePacket.data buf) else none

/-- Modelled from the spec: a sequence of text-mode write calls,
failing as soon as one call is not a single LF-terminated line. -/
def text_write_calls : List (List Nat) → Option (List BytePacket)
  | [] => some []
  | b :: bs =>
    match text_write_call b, text_write_calls bs with
    | some p, some ps => some (p :: ps)
    | _, _ => none

/-- A framed line of the response stream: ordinary payload, or a
sideband/out-of-band line carrying progress or error text. -/
inductive SBLine where
  | payload (bytes : List Nat)
  | band (isErr : Bool) (bytes : List Nat)
  deriving DecidableEq, Repr

/-- Whether a line is a sideband line. -/
def SBLine.isBand : SBLine → Bool
  | SBLine.band _ _ => true
  | SBLine.payload _ => false

/-- The (channel-kind flag, raw bytes) pair handed to a progress
handler for a sideband line. -/
def SBLine.bandTag : SBLine → Bool × List Nat
  | SBLine.band e b => (e, b)
  | SBLine.payload b => (false, b)

/-- Modelled from the spec: the sideband-aware reader
(`git_packetline::provider::ReadWithSidebands`, not under `src/`)
behind `ExtendedBufRead` — a progress-handler slot (`handler`),
already-buffered payload bytes not yet consumed (`buffer`), and the
remaining framed input lines. -/
structure ReadWithSidebands where
  handler : Bool
  buffer : List Nat
  input : List SBLine
  deriving DecidableEq, Repr

/-- `ExtendedBufRead::set_progress_handler` (mod.rs lines 117-131):
installs, replaces, or clears the handler; nothing else changes. -/
def set_progress_handler (r : ReadWithSidebands) (h : Bool) : ReadWithSidebands :=
  { r with handler := h }

/-- Modelled from the spec: filling the buffer consumes input lines up
to and including the next payload line; each sideband line encountered
on the way is routed to the handler when one is installed — the
returned list records the handler invocations — and is never surfaced
as payload. -/
def fillFrom (h : Bool) : List SBLine → (List Nat × List SBLine) × List (Bool × List Nat)
  | [] => (([], []), [])
  | SBLine.payload b :: rest => ((b, rest), [])
  | SBLine.band e b :: rest =>
    let s := fillFrom h rest
    (s.1, if h then (e, b) :: s.2 else s.2)

/-- Modelled from the spec: `fill_buf` on the sideband-aware reader —
a no-op when payload bytes are already buffered, else consumes input
via `fillFrom`, returning the new state and the handler invocations. -/
def ReadWithSidebands.fill_buf (r : ReadWithSidebands) :
    ReadWithSidebands × List (Bool × List Nat) :=
  if r.buffer.isEmpty then
    let s := fillFrom r.handler r.input
    (⟨r.handler, s.1.1, s.1.2⟩, s.2)
  else (r, [])

lemma foldl_write_all_written (C : List (String × Option String)) (w : RequestWriter) :
    (C.foldl (fun w c => w.write_all (capLine c)) w).written
      = w.written ++ C.map (fun c => Packet.dataLine (capLine c)) := by
  induction C generalizing w with
  | nil => simp
  | cons c cs ih =>
    rw [List.foldl_cons, ih]
    simp [RequestWriter.write_all, List.append_assoc]

lemma foldl_write_all_on_drop (C : List (String × Option String)) (w : RequestWriter) :
    (C.foldl (fun w c => w.write_all (capLine c)) w).on_drop = w.on_drop := by
  induction C generalizing w with
  | nil => rfl
  | cons c cs ih => rw [List.foldl_cons, ih]; rfl

lemma foldl_write_all_reader (C : List (String × Option String)) (w : RequestWriter) :
    (C.foldl (fun w c => w.write_all (capLine c)) w).reader = w.reader := by
  induction C generalizing w with
  | nil => rfl
  | cons c cs ih => rw [List.foldl_cons, ih]; rfl

/-- C1: `invoke(N, C, None)` writes, in order, the single line
`"command=N"`, then one line per entry of C (`"name"` or
`"name=value"`) in C's given order with no reordering and no
deduplication, and exactly one flush control packet is emitted once
the write phase ends at `into_read`, even when C is empty. -/
theorem invoke_none_trace (N : String) (C : List (String × Option String))
    (rd : InnerReader) :
    invoke N C none rd
      = InvokeResult.ok
          (Packet.dataLine ("command=" ++ N)
            :: C.map (fun c => Packet.dataLine (capLine c)) ++ [Packet.flush])
          ⟨rd⟩
    ∧ (Packet.dataLine ("command=" ++ N)
        :: C.map (fun c => Packet.dataLine (capLine c))
        ++ [Packet.flush]).count Packet.flush = 1 := by
  constructor
  · simp only [invoke, RequestWriter.into_read]
    rw [foldl_write_all_written, foldl_write_all_on_drop, foldl_write_all_reader]
    simp [request, RequestWriter.write_all, msgPacket]
  · have h1 : Packet.flush
        ∉ Packet.dataLine ("command=" ++ N)
            :: C.map (fun c => Packet.dataLine (capLine c)) := by
      intro h
      rcases List.mem_cons.mp h with h | h
      · exact Packet.noConfusion h
      · rcases List.mem_map.mp h with ⟨c, _, hc⟩
        exact Packet.noConfusion hc
    have h2 : ((Packet.dataLine ("command=" ++ N)
          :: C.map (fun c => Packet.dataLine (capLine c)))
          ++ [Packet.flush]).count Packet.flush = 1 := by
      rw [List.count_append, List.count_eq_zero.mpr h1]
      rfl
    simpa using h2

/-- C9: the `Default` value of `WriteMode` is
`OneLFTerminatedLinePerWriteCall`, not `Binary`. -/
theorem writeMode_default :
    (default : WriteMode) = WriteMode.OneLFTerminatedLinePerWriteCall
    ∧ (default : WriteMode) ≠ WriteMode.Binary := by
  exact ⟨rfl, fun h => WriteMode.noConfusion h⟩

/-- C3: `invoke(N, C, Some(args))` always ends in the
incomplete-feature (`unimplemented!("arguments")`) fault, regardless
of the contents of `args`, rather than silently omitting the
arguments and returning normally. -/
theorem invoke_some_always_faults (N : String) (C : List (String × Option String))
    (args : List String) (rd : InnerReader) :
    (invoke N C (some args) rd).isArgumentsFault = true
    ∧ ∀ args₂ : List String, invoke N C (some args) rd = invoke N C (some args₂) rd := by
  constructor
  · rfl
  · intro args₂
    rfl

/-- C8: `invoke(N, C, Some(args))` writes the `"command=N"` line and
every capability line of C before the arguments check fires: the fault
is not atomic (those packets are already in the sink trace when it
occurs), and it is a panic, not a returned `Error` value. -/
theorem invoke_some_nonatomic_panic (N : String) (C : List (String × Option String))
    (args : List String) (rd : InnerReader) :
    invoke N C (some args) rd
      = InvokeResult.panicked "not implemented: arguments"
          (Packet.dataLine ("command=" ++ N)
            :: C.map (fun c => Packet.dataLine (capLine c)))
    ∧ ∀ e : Error, invoke N C (some args) rd ≠ InvokeResult.error e := by
  have hmain : invoke N C (some args) rd
      = InvokeResult.panicked "not implemented: arguments"
          (Packet.dataLine ("command=" ++ N)
            :: C.map (fun c => Packet.dataLine (capLine c))) := by
    simp only [invoke]
    rw [foldl_write_all_written]
    simp [request, RequestWriter.write_all]
  refine ⟨hmain, fun e h => ?_⟩
  rw [hmain] at h
  exact InvokeResult.noConfusion h

/-- C2: the queued `MessageKind` entries of a writer built by
`new_from_bufread` are emitted exactly once, in FIFO order, as raw
control packets at teardown (when `into_read` consumes the writer or
it leaves scope); in particular `on_drop = [Flush]` emits exactly one
flush packet even with no application bytes written, and
`on_drop = []` emits nothing extra. -/
theorem teardown_fifo (mode : WriteMode) (on_drop : List MessageKind) :
    teardownEmits (new_from_bufread mode on_drop) = on_drop.map msgPacket
    ∧ teardownEmits (new_from_bufread mode [MessageKind.Flush]) = [Packet.flush]
    ∧ teardownEmits (new_from_bufread mode []) = [] := by
  refine ⟨?_, rfl, rfl⟩
  cases on_drop with
  | nil => rfl
  | cons m ms => rfl

lemma dropDrain_panics (ok : Packet → Bool) (msgs : List MessageKind)
    (h : ∃ m ∈ msgs, ok (msgPacket m) = false) :
    (dropDrain ok msgs).isPanic = true := by
  induction msgs with
  | nil => rcases h with ⟨m, hm, _⟩; exact absurd hm (List.not_mem_nil m)
  | cons m rest ih =>
    rw [dropDrain]
    by_cases hm : ok (msgPacket m) = true
    · rw [if_pos hm]
      have hrest : ∃ x ∈ rest, ok (msgPacket x) = false := by
        rcases h with ⟨x, hx, hxf⟩
        rcases List.mem_cons.mp hx with hx | hx
        · rw [hx] at hxf; rw [hm] at hxf; exact absurd hxf (by simp)
        · exact ⟨x, hx, hxf⟩
      have := ih hrest
      cases hd : dropDrain ok rest with
      | ok e => rw [hd] at this; exact absurd this (by simp [DropOutcome.isPanic])
      | panic s e => simp [hd, DropOutcome.isPanic]
    · rw [if_neg hm]
      rfl

/-- C4: an I/O failure while emitting a queued control packet during
writer teardown escalates to the unconditional panic carrying the
diagnostic `dropExpectMsg` and is never returned as an ordinary
result, while a failure on the ordinary write path comes back as the
distinguishable `Error.Io` error value. -/
theorem drop_failure_panics (ok : Packet → Bool) (msgs : List MessageKind)
    (h : ∃ m ∈ msgs, ok (msgPacket m) = false) :
    (dropDrain ok msgs).isPanic = true
    ∧ (∀ e, dropDrain ok msgs ≠ DropOutcome.ok e)
    ∧ (∃ e, dropDrain ok msgs = DropOutcome.panic dropExpectMsg e)
    ∧ ∀ buf, ok (Packet.dataLine buf) = false →
        writeToSink ok buf = Except.error (Error.Io "io error") := by
  have hp := dropDrain_panics ok msgs h
  have hmsg : ∀ oks (ms : List MessageKind), (dropDrain oks ms).isPanic = true →
      ∃ e, dropDrain oks ms = DropOutcome.panic dropExpectMsg e := by
    intro oks ms
    induction ms with
    | nil => intro hx; exact absurd hx (by simp [dropDrain, DropOutcome.isPanic])
    | cons m rest ih =>
      intro hx
      rw [dropDrain] at hx ⊢
      by_cases hm : oks (msgPacket m) = true
      · rw [if_pos hm] at hx ⊢
        cases hd : dropDrain oks rest with
        | ok e =>
          rw [hd] at hx
          exact absurd hx (by simp [DropOutcome.isPanic])
        | panic s e =>
          rcases ih (by rw [hd]; rfl) with ⟨e₂, he₂⟩
          rw [hd] at he₂
          have hs : s = dropExpectMsg := by
            injection he₂
          exact ⟨msgPacket m :: e, by subst hs; rfl⟩
      · rw [if_neg hm] at hx ⊢
        exact ⟨[], rfl⟩
  refine ⟨hp, ?_, hmsg ok msgs hp, ?_⟩
  · intro e he
    rw [he] at hp
    exact absurd hp (by simp [DropOutcome.isPanic])
  · intro buf hb
    rw [writeToSink, if_neg]
    rw [hb]
    simp

/-- Witness for C4 at a concrete input: a sink failing every emission
and the queue `[Flush]` satisfy the hypothesis, and the drain panics. -/
theorem drop_failure_panics_witness :
    (∃ m ∈ [MessageKind.Flush], (fun _ : Packet => false) (msgPacket m) = false)
    ∧ (dropDrain (fun _ => false) [MessageKind.Flush]).isPanic = true :=
  ⟨⟨MessageKind.Flush, List.mem_singleton.mpr rfl, rfl⟩,
    (drop_failure_panics (fun _ => false) [MessageKind.Flush]
      ⟨MessageKind.Flush, List.mem_singleton.mpr rfl, rfl⟩).1⟩

lemma runResp_delegates (r : InnerReader) (ops : List ROp) :
    (runResp ⟨r⟩ ops).1.reader = (runInner r ops).1
    ∧ (runResp ⟨r⟩ ops).2 = (runInner r ops).2 := by
  induction ops generalizing r with
  | nil => exact ⟨rfl, rfl⟩
  | cons op ops ih =>
    cases op with
    | read n =>
      have h := ih (r.readBytes n).2
      simp only [runResp, runInner, ResponseReader.read]
      exact ⟨h.1, by rw [h.2]⟩
    | fill =>
      have h := ih r
      simp only [runResp, runInner, ResponseReader.fillBuf]
      exact ⟨h.1, by rw [h.2]⟩
    | consume n =>
      have h := ih (r.consume n)
      simp only [runResp, runInner, ResponseReader.consume]
      exact h

/-- C10: `into_read` returns a `ResponseReader` wrapping exactly the
reader paired with the writer at construction, unchanged, and every
`read`, `fill_buf`, `consume` sequence on the `ResponseReader`
delegates byte-for-byte to that same inner reader. -/
theorem into_read_delegates (w : RequestWriter) (ops : List ROp) :
    (w.into_read).2.reader = w.reader
    ∧ (runResp (w.into_read).2 ops).2 = (runInner w.reader ops).2
    ∧ (runResp (w.into_read).2 ops).1.reader = (runInner w.reader ops).1 := by
  have h := runResp_delegates w.reader ops
  exact ⟨rfl, h.2, h.1⟩

/-- C5: negotiation is downgrade-only — the actual protocol in the
handshake result is always ≤ the requested one — and a handshake
requesting V2 against a server reporting only V0 returns
`actual_protocol = V0` with `refs = Some(stream)` rather than an
error. -/
theorem handshake_downgrade_only (req srv : Protocol)
    (caps : List (String × Option String)) (refLines : List (List Nat)) :
    (handshake req srv caps refLines).actual_protocol.version ≤ req.version
    ∧ (handshake Protocol.V2 Protocol.V0 caps refLines).actual_protocol = Protocol.V0
    ∧ (handshake Protocol.V2 Protocol.V0 caps refLines).refs = some refLines := by
  refine ⟨?_, rfl, rfl⟩
  rw [handshake]
  dsimp only
  split
  · assumption
  · exact Nat.le_refl _

lemma text_write_calls_total (bufs : List (List Nat))
    (h : ∀ b ∈ bufs, isOneLFLine b = true) :
    ∃ ps, text_write_calls bufs = some ps ∧ ps.length = bufs.length := by
  induction bufs with
  | nil => exact ⟨[], rfl, rfl⟩
  | cons b bs ih =>
    have hb : isOneLFLine b = true := h b (List.mem_cons_self b bs)
    rcases ih (fun x hx => h x (List.mem_cons_of_mem b hx)) with ⟨ps, hps, hlen⟩
    refine ⟨BytePacket.data b :: ps, ?_, by simp [hlen]⟩
    rw [text_write_calls, text_write_call, if_pos hb, hps]

/-- C6: in binary mode, the payload bytes of every write call — any
byte sequences whatsoever — pass through unmodified as opaque data
packets, one per call; in `OneLFTerminatedLinePerWriteCall` mode, when
every write call is exactly one LF-terminated logical line, each call
maps 1:1 to exactly one emitted packet.  The LF-line condition
constrains only the text-mode conjunct: `bufs` is arbitrary. -/
theorem write_mode_framing (bufs lineBufs : List (List Nat))
    (h : ∀ b ∈ lineBufs, isOneLFLine b = true) :
    (binary_write_calls bufs).map BytePacket.payloadBytes = bufs
    ∧ (binary_write_calls bufs).length = bufs.length
    ∧ ∃ ps, text_write_calls lineBufs = some ps ∧ ps.length = lineBufs.length := by
  refine ⟨?_, ?_, text_write_calls_total lineBufs h⟩
  · have hcomp : BytePacket.payloadBytes ∘ BytePacket.data = id := funext fun p => rfl
    simp [binary_write_calls, List.map_map, hcomp]
  · simp [binary_write_calls]

/-- Witness for C6 at concrete inputs: binary mode passes through the
arbitrary non-line byte sequences `[0, 255, 10, 10]` and `[97]`
unmodified, while the text-mode write call `"a\n"` (bytes `[97, 10]`)
is one LF-terminated line and maps to exactly one packet. -/
theorem write_mode_framing_witness :
    (∀ b ∈ [[97, 10]], isOneLFLine b = true)
    ∧ ((binary_write_calls [[0, 255, 10, 10], [97]]).map BytePacket.payloadBytes
          = [[0, 255, 10, 10], [97]]
      ∧ (binary_write_calls [[0, 255, 10, 10], [97]]).length
          = ([[0, 255, 10, 10], [97]] : List (List Nat)).length
      ∧ ∃ ps, text_write_calls [[97, 10]] = some ps
          ∧ ps.length = ([[97, 10]] : List (List Nat)).length) :=
  ⟨by decide, write_mode_framing [[0, 255, 10, 10], [97]] [[97, 10]] (by decide)⟩

lemma fillFrom_true (inp : List SBLine) :
    (fillFrom true inp).2 = (inp.takeWhile SBLine.isBand).map SBLine.bandTag := by
  induction inp with
  | nil => rfl
  | cons l rest ih =>
    cases l with
    | payload b => rfl
    | band e b =>
      rw [fillFrom]
      simp [List.takeWhile_cons, SBLine.isBand, SBLine.bandTag, ih]

lemma fillFrom_false (inp : List SBLine) :
    (fillFrom false inp).2 = [] := by
  induction inp with
  | nil => rfl
  | cons l rest ih =>
    cases l with
    | payload b => rfl
    | band e b =>
      rw [fillFrom]
      simpa using ih

/-- C7: with a handler installed, filling the buffer invokes it
exactly once per sideband line encountered — the invocation list is
precisely the sideband prefix of the input, tagged — and never for
ordinary payload lines; setting the handler to `None` stops invocation
entirely (on any state) while `set_progress_handler` never touches
already-buffered payload bytes, and the handler may be installed,
replaced, or cleared between any two reads. -/
theorem progress_handler_behavior (r : ReadWithSidebands) (h : Bool)
    (inp : List SBLine) :
    (set_progress_handler r h).buffer = r.buffer
    ∧ (set_progress_handler r h).handler = h
    ∧ (fillFrom true inp).2 = (inp.takeWhile SBLine.isBand).map SBLine.bandTag
    ∧ (fillFrom false inp).2 = []
    ∧ ((set_progress_handler r false).fill_buf).2 = [] := by
  refine ⟨rfl, rfl, fillFrom_true inp, fillFrom_false inp, ?_⟩
  rw [ReadWithSidebands.fill_buf]
  dsimp only [set_progress_handler]
  split
  · exact fillFrom_false r.input
  · rfl

end GitTransport
